import Mathlib

/-!
Verification development for the ogframe request-admission and caching
pipeline.  JavaScript strings are modelled as lists of Unicode code points
(`JSStr`), stateful services (rate limiter, cache) as explicit state passing,
and fallible operations as `Option`/`Except` results.
-/

/-- A JavaScript string, modelled as its list of Unicode code points. -/
abbrev JSStr := List Nat

/-- Code points of a Lean string literal, for writing concrete inputs. -/
def jstr (s : String) : JSStr := s.data.map Char.toNat

/-- One code point of `String.prototype.toLowerCase` restricted to ASCII
(the only case mapping exercised by the code under study). -/
def lowerCode (n : Nat) : Nat := if 65 ≤ n ∧ n ≤ 90 then n + 32 else n

/-- `String.prototype.toLowerCase` on a modelled string. -/
def lowerStr (s : JSStr) : JSStr := s.map lowerCode

/-- ASCII letter, the scheme alphabet accepted by the URL model. -/
def isAsciiAlpha (n : Nat) : Bool := (65 ≤ n && n ≤ 90) || (97 ≤ n && n ≤ 122)

/-- ASCII digit. -/
def isDigitCode (n : Nat) : Bool := 48 ≤ n && n ≤ 57

/-- Code point allowed inside the host component: anything except the
delimiters `/ ? # : @`. -/
def isHostCode (n : Nat) : Bool := !(n == 47 || n == 63 || n == 35 || n == 58 || n == 64)

/-- Code point allowed inside the path component: anything except `? #`. -/
def isPathCode (n : Nat) : Bool := !(n == 63 || n == 35)

/-- Result of the WHATWG `new URL(...)` parse, restricted to the component
fields the code reads.  `protocol` is the scheme without its trailing colon
and, like `hostname`, is lower-cased by the parser; `pathname` keeps its
original character case and starts with `/`. -/
structure ParsedURL where
  protocol : JSStr
  hostname : JSStr
  port : JSStr
  pathname : JSStr
  search : JSStr
  fragment : JSStr
deriving DecidableEq

/-- Delimiter expected right after the authority: end of string, `/`, `?`
or `#`. -/
def delimOk (r : JSStr) : Bool :=
  match r with
  | [] => true
  | a :: _ => a == 47 || a == 63 || a == 35

/-- Split everything after the authority into pathname / search / fragment,
defaulting the pathname to `/` as the WHATWG parser does for http(s). -/
def parseAfterHost (scheme host port r : JSStr) : Option ParsedURL :=
  if delimOk r then
    let path := r.takeWhile isPathCode
    let tail := r.dropWhile isPathCode
    some { protocol := scheme, hostname := host, port := port,
           pathname := if path.isEmpty then [47] else path,
           search := tail.takeWhile (fun n => !(n == 35)),
           fragment := tail.dropWhile (fun n => !(n == 35)) }
  else none

/-- Model of `new URL(url)` on the `scheme://host[:port][/path][?query][#frag]`
shape used by the service: an alphabetic scheme followed by `://`, a
non-empty host free of delimiter characters, an optional all-digit port.
Scheme and hostname are lower-cased by the parser; inputs outside this
shape (userinfo, empty host, non-numeric port, ...) are rejected, modelling
the constructor throwing. -/
def parseUrl (s : JSStr) : Option ParsedURL :=
  let scheme := s.takeWhile isAsciiAlpha
  match s.dropWhile isAsciiAlpha with
  | 58 :: 47 :: 47 :: r2 =>
    if scheme.isEmpty then none
    else
      let host := r2.takeWhile isHostCode
      let r3 := r2.dropWhile isHostCode
      if host.isEmpty then none
      else
        match r3 with
        | 58 :: r3' =>
          let port := r3'.takeWhile isDigitCode
          let r4 := r3'.dropWhile isDigitCode
          if port.isEmpty then none
          else parseAfterHost (lowerStr scheme) (lowerStr host) port r4
        | _ => parseAfterHost (lowerStr scheme) (lowerStr host) [] r3
  | _ => none

/-- `replace(/\/$/, '')`: remove one trailing slash if present. -/
def stripTrailingSlash (s : JSStr) : JSStr :=
  if s.getLast? = some 47 then s.dropLast else s

/-- `normalizeUrl` from `src/utils/url.ts`: parse, rebuild
`protocol//hostname+pathname`, lower-case the whole string, drop one
trailing slash.  `none` models the `INVALID_URL` throw. -/
def normalizeUrl (s : JSStr) : Option JSStr :=
  (parseUrl s).map fun p =>
    stripTrailingSlash (lowerStr (p.protocol ++ [58, 47, 47] ++ p.hostname ++ p.pathname))

/-- `String.prototype.includes`: does `needle` occur as a contiguous
substring of `hay`? -/
def containsSub (needle : JSStr) : JSStr → Bool
  | [] => needle.isPrefixOf []
  | a :: t => needle.isPrefixOf (a :: t) || containsSub needle t

/-- `matchDomain` from `src/utils/url.ts`: exact match, `*.`-wildcard,
`:*` port wildcard, otherwise `false`. -/
def matchDomain (actual pat : JSStr) : Bool :=
  if actual = pat then true
  else if pat.take 2 = [42, 46] then
    let base := pat.drop 2
    actual = base || (46 :: base).isSuffixOf actual
  else if containsSub [58, 42] pat then
    let base := pat.takeWhile (fun n => !(n == 58))
    (base ++ [58]).isPrefixOf actual || actual = base
  else false

/-- Reasons attached to the `INVALID_URL` error code in `validateUrl`. -/
inductive InvalidReason where
  | malformed
  | httpsRequired
  | badProtocol
  | portBlocked
  | tooLong
deriving DecidableEq

/-- The errors `validateUrl` can throw. -/
inductive UrlError where
  | invalidUrl (reason : InvalidReason)
  | domainNotAllowed (domain : JSStr) (allowed : List JSStr)
deriving DecidableEq

/-- The fixed blocklist of sensitive service ports. -/
def dangerousPorts : List JSStr :=
  [jstr "22", jstr "23", jstr "25", jstr "3306", jstr "5432", jstr "6379",
   jstr "27017", jstr "9200", jstr "11211"]

/-- `validateUrl` from `src/utils/url.ts`: malformed, protocol, domain
allow-list, dangerous-port and hardcoded 2048-length checks, in source
order.  `none` models a successful return. -/
def validateUrl (url : JSStr) (allowedDomains : List JSStr) (requireHttps : Bool) :
    Option UrlError :=
  match parseUrl url with
  | none => some (UrlError.invalidUrl InvalidReason.malformed)
  | some p =>
    if requireHttps && !(p.protocol == jstr "https") then
      some (UrlError.invalidUrl InvalidReason.httpsRequired)
    else if !(p.protocol == jstr "http") && !(p.protocol == jstr "https") then
      some (UrlError.invalidUrl InvalidReason.badProtocol)
    else if !(allowedDomains.any (fun a => matchDomain p.hostname a)) then
      some (UrlError.domainNotAllowed p.hostname allowedDomains)
    else if !p.port.isEmpty && dangerousPorts.contains p.port then
      some (UrlError.invalidUrl InvalidReason.portBlocked)
    else if 2048 < url.length then
      some (UrlError.invalidUrl InvalidReason.tooLong)
    else none

/-- `getEnvInt('MAX_URL_LENGTH', 2048, 100, 4096)` from `src/config.ts`:
the configured URL-length ceiling, defaulting to 2048 and clamped to
100..4096 when set. -/
def maxUrlLengthConfig (envValue : Option Int) : Int :=
  match envValue with
  | none => 2048
  | some v => min (max v 100) 4096

/-- The hardcoded special TLD list of `getBaseDomain`. -/
def specialTLDs : List JSStr :=
  [jstr "co.uk", jstr "com.au", jstr "co.jp", jstr "com.br", jstr "co.nz"]

/-- `getBaseDomain` from `src/utils/url.ts`. -/
def getBaseDomain (hostname : JSStr) : JSStr :=
  let parts := hostname.splitOn 46
  if parts.length ≤ 2 then hostname
  else
    let lastTwo := List.intercalate [46] (parts.drop (parts.length - 2))
    if specialTLDs.contains lastTwo then
      List.intercalate [46] (parts.drop (parts.length - 3))
    else lastTwo

/-- Association-list lookup, modelling `Map.get` / JS object indexing. -/
def lookupA {κ β : Type} [DecidableEq κ] : List (κ × β) → κ → Option β
  | [], _ => none
  | (k', v) :: t, k => if k' = k then some v else lookupA t k

/-- Remove every binding of a key, modelling `Map.delete` / `delete obj[k]`. -/
def eraseA {κ β : Type} [DecidableEq κ] : List (κ × β) → κ → List (κ × β)
  | [], _ => []
  | (k', v) :: t, k => if k' = k then eraseA t k else (k', v) :: eraseA t k

/-- Insert-or-replace a binding, modelling `Map.set` / `obj[k] = v`. -/
def insertA {κ β : Type} [DecidableEq κ] (l : List (κ × β)) (k : κ) (v : β) :
    List (κ × β) :=
  (k, v) :: eraseA l k

/-- `RateLimitEntry` from `src/services/rateLimit.ts`; times are Unix
milliseconds. -/
structure RateLimitEntry where
  count : Nat
  resetAt : Nat
deriving DecidableEq

/-- The in-memory `rateLimitStore` map. -/
abbrev RateLimitStore := List (JSStr × RateLimitEntry)

/-- The data carried by a thrown `RateLimitError`. -/
structure RLimError where
  limit : Nat
  windowSeconds : Nat
  retryAfter : Nat
deriving DecidableEq

/-- `enforceLimit` from `src/services/rateLimit.ts`: create a fresh counter
on first touch or once `resetAt < now`, otherwise increment; throw once the
incremented count exceeds the limit, with `retryAfter = ceil((resetAt-now)/1000)`.
Returns the updated store together with the thrown error, if any. -/
def enforceLimit (store : RateLimitStore) (key : JSStr) (limit windowSeconds now : Nat) :
    RateLimitStore × Option RLimError :=
  match lookupA store key with
  | none => (insertA store key ⟨1, now + windowSeconds * 1000⟩, none)
  | some entry =>
    if entry.resetAt < now then
      (insertA store key ⟨1, now + windowSeconds * 1000⟩, none)
    else
      let e : RateLimitEntry := ⟨entry.count + 1, entry.resetAt⟩
      let store' := insertA store key e
      if limit < e.count then
        (store', some ⟨limit, windowSeconds, (entry.resetAt - now + 999) / 1000⟩)
      else (store', none)

/-- `'public' | 'admin'` key kinds. -/
inductive KeyType where
  | publicKey
  | adminKey
deriving DecidableEq

/-- The `rateLimit` record of an `ApiKey`. -/
structure RateLimitCfg where
  requests : Nat
  generations : Nat
deriving DecidableEq

/-- The fields of the `ApiKey` record read by the pipeline. -/
structure ApiKeyRec where
  keyId : JSStr
  type : KeyType
  allowedDomains : List JSStr
  rateLimit : RateLimitCfg
deriving DecidableEq

/-- `getDomainFromReferer` from `src/services/rateLimit.ts`. -/
def getDomainFromReferer (referer : Option JSStr) : Option JSStr :=
  match referer with
  | none => none
  | some r =>
    match parseUrl r with
    | none => none
    | some p => some (getBaseDomain p.hostname)

/-- Tiers 1-3 of `checkRateLimit`: the per-key request limit, then on a
cache miss the per-key generation limit and, for public keys with a
referring domain, the per-domain generation limit.  Each thrown error
aborts the rest. -/
def requestTiers (store : RateLimitStore) (apiKey : ApiKeyRec) (referer : Option JSStr)
    (isCacheHit : Bool) (now : Nat) : RateLimitStore × Option RLimError :=
  match enforceLimit store (jstr "req:" ++ apiKey.keyId) apiKey.rateLimit.requests 60 now with
  | (st1, some e) => (st1, some e)
  | (st1, none) =>
    if isCacheHit then (st1, none)
    else
      match enforceLimit st1 (jstr "gen:" ++ apiKey.keyId) apiKey.rateLimit.generations 60 now with
      | (st2, some e) => (st2, some e)
      | (st2, none) =>
        match apiKey.type, getDomainFromReferer referer with
        | KeyType.publicKey, some d =>
          enforceLimit st2 (jstr "gen:" ++ apiKey.keyId ++ 58 :: d)
            apiKey.rateLimit.generations 60 now
        | _, _ => (st2, none)

/-- `checkRateLimit` from `src/services/rateLimit.ts`: tiers 1-3, then the
IP tier (limit 2000 on hits, 50 on misses) unless the address is the
`'unknown'` sentinel. -/
def checkRateLimit (store : RateLimitStore) (apiKey : ApiKeyRec) (referer : Option JSStr)
    (ip : JSStr) (isCacheHit : Bool) (now : Nat) : RateLimitStore × Option RLimError :=
  match requestTiers store apiKey referer isCacheHit now with
  | (st, some e) => (st, some e)
  | (st, none) =>
    if ip = jstr "unknown" then (st, none)
    else
      enforceLimit st
        (jstr "ip:" ++ ip ++ 58 :: (if isCacheHit then jstr "req" else jstr "gen"))
        (if isCacheHit then 2000 else 50) 60 now

/-- `CacheEntry` from `src/types.ts`; the ISO timestamp strings are
modelled by the clock instants they denote. -/
structure CacheEntry where
  url : JSStr
  normalizedUrl : JSStr
  cacheKey : JSStr
  filePath : JSStr
  size : Nat
  createdAt : Nat
  lastAccessed : Nat
  accessCount : Nat
  generationTime : Nat
deriving DecidableEq

/-- The cache service's state: the in-memory metadata index, the on-disk
image files (path to bytes), and the hit/miss counters. -/
structure CacheState where
  metadata : List (JSStr × CacheEntry)
  files : List (JSStr × JSStr)
  cacheHits : Nat
  cacheMisses : Nat
deriving DecidableEq

/-- `join(config.cacheDir, 'images')` with the default cache directory. -/
def imagesDir : JSStr := jstr "./cache/images"

/-- `getCacheFilePath` from `src/services/cache.ts`: shard by the first two
characters of the cache key. -/
def getCacheFilePath (cacheKey : JSStr) : JSStr :=
  imagesDir ++ 47 :: cacheKey.take 2 ++ 47 :: cacheKey ++ jstr ".png"

/-- `getFromCache` from `src/services/cache.ts`.  `digest` models
`generateCacheKey` (the SHA-256 hex digest of the canonical URL, an external
crypto primitive).  No index entry, or an entry whose backing file is
missing, is a miss; the latter also evicts the stale entry.  A real hit
bumps `lastAccessed`/`accessCount`. -/
def getFromCache (digest : JSStr → JSStr) (st : CacheState) (normalizedUrl : JSStr)
    (now : Nat) : CacheState × Option JSStr :=
  let cacheKey := digest normalizedUrl
  match lookupA st.metadata cacheKey with
  | none => ({ st with cacheMisses := st.cacheMisses + 1 }, none)
  | some entry =>
    match lookupA st.files entry.filePath with
    | none =>
      ({ st with metadata := eraseA st.metadata cacheKey,
                 cacheMisses := st.cacheMisses + 1 }, none)
    | some bytes =>
      ({ st with metadata := insertA st.metadata cacheKey
                   { entry with lastAccessed := now, accessCount := entry.accessCount + 1 },
                 cacheHits := st.cacheHits + 1 }, some bytes)

/-- The I/O environment: which file paths `writeFileSync` can currently
write (false models an I/O error such as a full disk). -/
structure FsModel where
  writeOk : JSStr → Bool

/-- The error thrown out of `saveToCache` when the image write fails. -/
inductive FsError where
  | writeFailed
deriving DecidableEq

/-- `saveToCache` from `src/services/cache.ts`: write the image file (the
thrown error is re-raised on failure, before any metadata change), then
create and persist the metadata entry. -/
def saveToCache (digest : JSStr → JSStr) (fsm : FsModel) (st : CacheState)
    (url normalizedUrl imageBuffer : JSStr) (generationTime now : Nat) :
    CacheState × Except FsError CacheEntry :=
  let cacheKey := digest normalizedUrl
  let filePath := getCacheFilePath cacheKey
  if fsm.writeOk filePath then
    let entry : CacheEntry :=
      ⟨url, normalizedUrl, cacheKey, filePath, imageBuffer.length, now, now, 1, generationTime⟩
    ({ st with files := insertA st.files filePath imageBuffer,
               metadata := insertA st.metadata cacheKey entry }, Except.ok entry)
  else (st, Except.error FsError.writeFailed)

/-- The failure kinds of the external screenshot engine. -/
inductive CaptureError where
  | timeout
  | network
  | engine
deriving DecidableEq

/-- Error codes of the HTTP error responses produced by the handler and
the `onError` hook. -/
inductive ErrCode where
  | invalidUrl
  | domainNotAllowed
  | rateLimitExceeded
  | screenshotTimeout
  | screenshotFailed
  | internalError
deriving DecidableEq

/-- What `GET /api/image` sends back: an image response or an error
response with its HTTP status. -/
inductive HandlerOutcome where
  | image (bytes : JSStr) (cacheHit : Bool)
  | failure (code : ErrCode) (status : Nat)
deriving DecidableEq

/-- The mutable server state the handler touches. -/
structure ServerState where
  cache : CacheState
  rateLimits : RateLimitStore
deriving DecidableEq

/-- The `GET /api/image` handler from `src/index.ts` (steps 3-7, the
principal already resolved): validate, normalize, cache lookup, rate
limits, then serve the cached bytes or the freshly generated image
(`genResult` models the external `generateScreenshot` outcome,
`generationTime` the measured latency).  Thrown errors are rendered by the
`onError` hook; a non-`OGFrameError` (the re-thrown cache write failure)
becomes a 500 `INTERNAL_ERROR`. -/
def getImageHandler (digest : JSStr → JSStr) (fsm : FsModel) (st : ServerState)
    (apiKey : ApiKeyRec) (url : JSStr) (referer : Option JSStr) (ip : JSStr)
    (requireHttps : Bool) (genResult : Except CaptureError JSStr)
    (generationTime now : Nat) : ServerState × HandlerOutcome :=
  match validateUrl url apiKey.allowedDomains requireHttps with
  | some (UrlError.invalidUrl _) => (st, HandlerOutcome.failure ErrCode.invalidUrl 400)
  | some (UrlError.domainNotAllowed _ _) =>
    (st, HandlerOutcome.failure ErrCode.domainNotAllowed 403)
  | none =>
    match normalizeUrl url with
    | none => (st, HandlerOutcome.failure ErrCode.invalidUrl 400)
    | some normalizedUrl =>
      match getFromCache digest st.cache normalizedUrl now with
      | (cache1, cached) =>
        match checkRateLimit st.rateLimits apiKey referer ip cached.isSome now with
        | (rl1, some _) =>
          (⟨cache1, rl1⟩, HandlerOutcome.failure ErrCode.rateLimitExceeded 429)
        | (rl1, none) =>
          match cached with
          | some bytes => (⟨cache1, rl1⟩, HandlerOutcome.image bytes true)
          | none =>
            match genResult with
            | Except.error CaptureError.timeout =>
              (⟨cache1, rl1⟩, HandlerOutcome.failure ErrCode.screenshotTimeout 500)
            | Except.error _ =>
              (⟨cache1, rl1⟩, HandlerOutcome.failure ErrCode.screenshotFailed 500)
            | Except.ok imageBuffer =>
              match saveToCache digest fsm cache1 url normalizedUrl imageBuffer
                  generationTime now with
              | (cache2, Except.ok _) =>
                (⟨cache2, rl1⟩, HandlerOutcome.image imageBuffer false)
              | (cache2, Except.error _) =>
                (⟨cache2, rl1⟩, HandlerOutcome.failure ErrCode.internalError 500)

/-- Iterate `enforceLimit` on one scope key: `n` sequential calls made at
the same instant `now`, starting from an empty store.  Returns the store
after the calls together with the outcome of the last call. -/
def enforceRepeat (key : JSStr) (limit w now : Nat) : Nat → RateLimitStore × Option RLimError
  | 0 => ([], none)
  | n + 1 => enforceLimit (enforceRepeat key limit w now n).1 key limit w now

example : normalizeUrl (jstr "https://example.com/page?ref=twitter")
    = some (jstr "https://example.com/page") := by decide
example : normalizeUrl (jstr "HTTPS://EXAMPLE.COM/Page")
    = some (jstr "https://example.com/page") := by decide
example : normalizeUrl (jstr "https://example.com/page/")
    = some (jstr "https://example.com/page") := by decide
example : matchDomain (jstr "sub.example.com") (jstr "*.example.com") = true := by decide
example : matchDomain (jstr "example.com") (jstr "*.example.com") = true := by decide
example : matchDomain (jstr "notexample.com") (jstr "*.example.com") = false := by decide
example : matchDomain (jstr "localhost:8080") (jstr "localhost:*") = true := by decide
example : matchDomain (jstr "example.com") (jstr "*") = false := by decide
example : validateUrl (jstr "https://example.com/") [jstr "example.com"] false = none := by decide
example : getBaseDomain (jstr "a.b.example.com") = jstr "example.com" := by decide
example : getBaseDomain (jstr "sub.example.co.uk") = jstr "example.co.uk" := by decide

/-! ### Association-list lemmas -/

theorem lookupA_insertA_self {κ β : Type} [DecidableEq κ] (l : List (κ × β)) (k : κ) (v : β) :
    lookupA (insertA l k v) k = some v := by
  simp [insertA, lookupA]

theorem lookupA_eraseA_ne {κ β : Type} [DecidableEq κ] (l : List (κ × β)) (k k' : κ)
    (h : k' ≠ k) : lookupA (eraseA l k) k' = lookupA l k' := by
  induction l with
  | nil => rfl
  | cons p t ih =>
    obtain ⟨a, b⟩ := p
    by_cases hak : a = k
    · subst hak
      show lookupA (if a = a then eraseA t a else (a, b) :: eraseA t a) k' = _
      rw [if_pos rfl, ih]
      show _ = (if a = k' then some b else lookupA t k')
      rw [if_neg (Ne.symm h)]
    · show lookupA (if a = k then eraseA t k else (a, b) :: eraseA t k) k' = _
      rw [if_neg hak]
      show (if a = k' then some b else lookupA (eraseA t k) k') = _
      rw [ih]
      rfl

theorem lookupA_insertA_ne {κ β : Type} [DecidableEq κ] (l : List (κ × β)) (k k' : κ) (v : β)
    (h : k' ≠ k) : lookupA (insertA l k v) k' = lookupA l k' := by
  show (if k = k' then some v else lookupA (eraseA l k) k') = _
  rw [if_neg (Ne.symm h), lookupA_eraseA_ne l k k' h]

theorem lookupA_eraseA_self {κ β : Type} [DecidableEq κ] (l : List (κ × β)) (k : κ) :
    lookupA (eraseA l k) k = none := by
  induction l with
  | nil => rfl
  | cons p t ih =>
    obtain ⟨a, b⟩ := p
    by_cases hak : a = k
    · simpa [eraseA, hak] using ih
    · simp [eraseA, hak, lookupA, ih]

/-- The rate limiter touches only the scope key it is called with. -/
theorem enforceLimit_frame (store : RateLimitStore) (key k : JSStr)
    (limit w now : Nat) (h : k ≠ key) :
    lookupA (enforceLimit store key limit w now).1 k = lookupA store k := by
  unfold enforceLimit
  match hl : lookupA store key with
  | none => simpa using lookupA_insertA_ne store key k _ h
  | some entry =>
    by_cases hr : entry.resetAt < now
    · simpa [hr] using lookupA_insertA_ne store key k _ h
    · by_cases hc : limit < entry.count + 1 <;>
        simpa [hr, hc] using lookupA_insertA_ne store key k _ h

/-! ### Claim C8: the `*.`-wildcard matcher -/

/-- Claim C8: for every hostname `h` and domain string `d`,
`matchDomain h ("*." ++ d)` is true exactly when `h = d` or `h` ends with
`"." ++ d`. -/
theorem matchDomain_wildcard_iff (h d : JSStr) :
    matchDomain h ([42, 46] ++ d) = true ↔ (h = d ∨ (46 :: d) <:+ h) := by
  unfold matchDomain
  by_cases heq : h = [42, 46] ++ d
  · rw [if_pos heq]
    simp only [true_iff]
    right
    exact ⟨[42], by rw [heq]; rfl⟩
  · rw [if_neg heq]
    have ht : ([42, 46] ++ d).take 2 = [42, 46] := rfl
    rw [if_pos ht]
    show (decide (h = ([42, 46] ++ d).drop 2) || (46 :: ([42, 46] ++ d).drop 2).isSuffixOf h)
        = true ↔ _
    have hdrop : ([42, 46] ++ d).drop 2 = d := rfl
    rw [hdrop]
    simp [List.isSuffixOf_iff_suffix]

/-! ### Claim C1: administrative principals and the domain check -/

/-- Claim C1 (refuting evaluation): an administrative principal carries the
allow-list `['*']`, but `matchDomain` supports no bare-`*` pattern, so
`validateUrl` rejects a well-formed https URL for an administrative
principal with `DOMAIN_NOT_ALLOWED` instead of bypassing the check. -/
theorem validateUrl_rejects_admin_star :
    matchDomain (jstr "example.com") (jstr "*") = false ∧
    validateUrl (jstr "https://example.com/") [jstr "*"] false
      = some (UrlError.domainNotAllowed (jstr "example.com") [jstr "*"]) := by
  decide

/-! ### Claim C9: the configured URL-length ceiling -/

/-- A URL of length 150 on an allowed domain. -/
def overlongUrl : JSStr := jstr "https://example.com/" ++ List.replicate 130 97

set_option maxRecDepth 4000 in
/-- Claim C9 (refuting evaluation): with `MAX_URL_LENGTH` configured to 100
the ceiling is 100, yet `validateUrl` accepts a 150-character URL — the
length check uses the hardcoded 2048, never `config.maxUrlLength`. -/
theorem validateUrl_ignores_configured_ceiling :
    maxUrlLengthConfig (some 100) = 100 ∧
    overlongUrl.length = 150 ∧
    validateUrl overlongUrl [jstr "example.com"] false = none := by
  decide

/-! ### Claim C4: window rollover semantics -/

/-- Claim C4 (refutation): at `now` exactly equal to the stored reset
instant the counter is incremented (count 5 becomes 6, reset instant kept),
not replaced by the fresh counter `⟨1, now + 60*1000⟩` the claim requires. -/
theorem enforceLimit_boundary_counterexample :
    lookupA (enforceLimit [(jstr "k", ⟨5, 1000⟩)] (jstr "k") 10 60 1000).1 (jstr "k")
      = some ⟨6, 1000⟩ ∧
    (⟨6, 1000⟩ : RateLimitEntry) ≠ ⟨1, 61000⟩ := by
  decide

/-- Claim C4 (amended): a scope's counter is replaced by a fresh one
(count 1, reset `now + window`) on first touch or once `now` is strictly
past the stored reset instant; whenever `now ≤ resetAt` — including at the
boundary `now = resetAt` — the existing counter is incremented instead. -/
theorem enforceLimit_rollover_semantics (store : RateLimitStore) (key : JSStr)
    (limit w now : Nat) :
    (lookupA store key = none →
      lookupA (enforceLimit store key limit w now).1 key = some ⟨1, now + w * 1000⟩) ∧
    (∀ e : RateLimitEntry, lookupA store key = some e → e.resetAt < now →
      lookupA (enforceLimit store key limit w now).1 key = some ⟨1, now + w * 1000⟩) ∧
    (∀ e : RateLimitEntry, lookupA store key = some e → now ≤ e.resetAt →
      lookupA (enforceLimit store key limit w now).1 key = some ⟨e.count + 1, e.resetAt⟩) := by
  refine ⟨fun hn => ?_, fun e he hr => ?_, fun e he hr => ?_⟩
  · unfold enforceLimit
    rw [hn]
    exact lookupA_insertA_self store key _
  · unfold enforceLimit
    rw [he]
    simp only [if_pos hr]
    exact lookupA_insertA_self store key _
  · unfold enforceLimit
    rw [he]
    simp only [if_neg (Nat.not_lt.mpr hr)]
    by_cases hc : limit < e.count + 1 <;>
      simpa [hc] using lookupA_insertA_self store key (⟨e.count + 1, e.resetAt⟩ : RateLimitEntry)

/-- Witness for `enforceLimit_rollover_semantics` at concrete inputs:
an expired counter (reset 500 < now 1000) is replaced, and a live counter
at the boundary (reset 1000 = now) is incremented. -/
theorem enforceLimit_rollover_semantics_witness :
    lookupA (enforceLimit [(jstr "k", ⟨3, 500⟩)] (jstr "k") 10 60 1000).1 (jstr "k")
      = some ⟨1, 61000⟩ ∧
    lookupA (enforceLimit [(jstr "k", ⟨3, 1000⟩)] (jstr "k") 10 60 1000).1 (jstr "k")
      = some ⟨4, 1000⟩ :=
  ⟨(enforceLimit_rollover_semantics [(jstr "k", ⟨3, 500⟩)] (jstr "k") 10 60 1000).2.1
      ⟨3, 500⟩ (by decide) (by decide),
   (enforceLimit_rollover_semantics [(jstr "k", ⟨3, 1000⟩)] (jstr "k") 10 60 1000).2.2
      ⟨3, 1000⟩ (by decide) (by decide)⟩

/-! ### Claim C5: limit enforcement within one window -/

/-- After `n+1` calls at the same instant the store holds exactly the one
counter, with count `n+1` and reset instant `now + w*1000`. -/
theorem enforceRepeat_store (key : JSStr) (limit w now : Nat) :
    ∀ n, (enforceRepeat key limit w now (n + 1)).1
      = [(key, ⟨n + 1, now + w * 1000⟩)] := by
  intro n
  induction n with
  | zero =>
    show (enforceLimit [] key limit w now).1 = _
    unfold enforceLimit
    rfl
  | succ m ih =>
    show (enforceLimit (enforceRepeat key limit w now (m + 1)).1 key limit w now).1 = _
    rw [ih]
    unfold enforceLimit
    have hl : lookupA [(key, (⟨m + 1, now + w * 1000⟩ : RateLimitEntry))] key
        = some ⟨m + 1, now + w * 1000⟩ := by simp [lookupA]
    rw [hl]
    simp only
    rw [if_neg (by omega : ¬ (now + w * 1000 < now))]
    by_cases hc : limit < m + 1 + 1 <;> simp [hc, insertA, eraseA]

/-- `ceil(w*1000 / 1000) = w`. -/
theorem retry_seconds_eq (w : Nat) : (w * 1000 + 999) / 1000 = w := by
  rw [Nat.mul_comm, Nat.mul_add_div (by decide)]
  rfl

/-- Claim C5: starting from an untouched scope, the first `limit` calls in
the window all succeed; the `(limit+1)`-th fails with `RateExceeded`
carrying the limit, the window and `retryAfterSeconds = w` (the remaining
seconds until the reset instant for calls made at the window's start); the
counter keeps incrementing past the limit; and a call strictly after the
reset instant succeeds again. -/
theorem rate_limit_window_scenario (key : JSStr) (limit w now : Nat) (hpos : 1 ≤ limit) :
    (∀ i, 1 ≤ i → i ≤ limit → (enforceRepeat key limit w now i).2 = none) ∧
    (enforceRepeat key limit w now (limit + 1)).2 = some ⟨limit, w, w⟩ ∧
    (∀ m, lookupA (enforceRepeat key limit w now (m + 1)).1 key
      = some ⟨m + 1, now + w * 1000⟩) ∧
    (∀ now', now + w * 1000 < now' →
      (enforceLimit (enforceRepeat key limit w now (limit + 1)).1 key limit w now').2
        = none) := by
  have hstep : ∀ m, enforceRepeat key limit w now (m + 2)
      = enforceLimit [(key, ⟨m + 1, now + w * 1000⟩)] key limit w now := by
    intro m
    show enforceLimit (enforceRepeat key limit w now (m + 1)).1 key limit w now = _
    rw [enforceRepeat_store key limit w now m]
  have hlook : ∀ c r, lookupA [(key, (⟨c, r⟩ : RateLimitEntry))] key = some ⟨c, r⟩ := by
    intro c r
    simp [lookupA]
  refine ⟨?_, ?_, ?_, ?_⟩
  · intro i h1 h2
    match i, h1 with
    | 1, _ =>
      show (enforceLimit [] key limit w now).2 = none
      unfold enforceLimit
      rfl
    | (m + 2), _ =>
      rw [hstep m]
      unfold enforceLimit
      rw [hlook]
      simp only
      rw [if_neg (by omega : ¬ (now + w * 1000 < now))]
      rw [if_neg (by omega : ¬ (limit < m + 1 + 1))]
  · obtain ⟨l', rfl⟩ : ∃ l', limit = l' + 1 := ⟨limit - 1, by omega⟩
    rw [hstep l']
    unfold enforceLimit
    rw [hlook]
    simp only
    rw [if_neg (by omega : ¬ (now + w * 1000 < now))]
    rw [if_pos (by omega : l' + 1 < l' + 1 + 1)]
    show some (⟨l' + 1, w, (now + w * 1000 - now + 999) / 1000⟩ : RLimError) = _
    rw [Nat.add_sub_cancel_left, retry_seconds_eq]
  · intro m
    rw [enforceRepeat_store key limit w now m]
    exact hlook (m + 1) (now + w * 1000)
  · intro now' hn
    rw [enforceRepeat_store key limit w now limit]
    unfold enforceLimit
    rw [hlook]
    simp only
    rw [if_pos hn]

/-- Witness for `rate_limit_window_scenario`: limit 2, window 60 s, calls
at instant 0 — call 2 succeeds, call 3 fails with retry-after 60 s, the
counter reaches 5 after 5 calls, and a call at instant 60001 succeeds. -/
theorem rate_limit_window_scenario_witness :
    (enforceRepeat (jstr "k") 2 60 0 2).2 = none ∧
    (enforceRepeat (jstr "k") 2 60 0 3).2 = some ⟨2, 60, 60⟩ ∧
    lookupA (enforceRepeat (jstr "k") 2 60 0 5).1 (jstr "k") = some ⟨5, 60000⟩ ∧
    (enforceLimit (enforceRepeat (jstr "k") 2 60 0 3).1 (jstr "k") 2 60 60001).2 = none := by
  have h := rate_limit_window_scenario (jstr "k") 2 60 0 (by decide)
  exact ⟨h.1 2 (by decide) (by decide), h.2.1, h.2.2.1 4, h.2.2.2 60001 (by decide)⟩

/-! ### Claim C7: stale index entries self-heal on `get` -/

/-- Claim C7: when the index has an entry for the CacheKey of a canonical
URL but the backing image file is absent, `getFromCache` returns a miss
AND evicts the stale index entry, so an immediately following lookup of
the same CacheKey finds no entry (and also misses). -/
theorem getFromCache_self_heals (digest : JSStr → JSStr) (st : CacheState)
    (nurl : JSStr) (now now' : Nat) (e : CacheEntry)
    (hm : lookupA st.metadata (digest nurl) = some e)
    (hf : lookupA st.files e.filePath = none) :
    (getFromCache digest st nurl now).2 = none ∧
    lookupA (getFromCache digest st nurl now).1.metadata (digest nurl) = none ∧
    (getFromCache digest (getFromCache digest st nurl now).1 nurl now').2 = none := by
  have hrun : getFromCache digest st nurl now
      = ({ st with metadata := eraseA st.metadata (digest nurl),
                   cacheMisses := st.cacheMisses + 1 }, none) := by
    simp only [getFromCache, hm, hf]
  refine ⟨by rw [hrun], ?_, ?_⟩
  · rw [hrun]
    exact lookupA_eraseA_self st.metadata (digest nurl)
  · rw [hrun]
    simp only [getFromCache, lookupA_eraseA_self]

/-- Witness for `getFromCache_self_heals`: a one-entry index whose backing
file store is empty. -/
theorem getFromCache_self_heals_witness :
    (getFromCache (fun s => s)
        ⟨[(jstr "https://example.com/a",
           ⟨jstr "https://example.com/a?x=1", jstr "https://example.com/a",
            jstr "https://example.com/a", jstr "p.png", 3, 0, 0, 1, 7⟩)], [], 0, 0⟩
        (jstr "https://example.com/a") 5).2 = none ∧
    lookupA (getFromCache (fun s => s)
        ⟨[(jstr "https://example.com/a",
           ⟨jstr "https://example.com/a?x=1", jstr "https://example.com/a",
            jstr "https://example.com/a", jstr "p.png", 3, 0, 0, 1, 7⟩)], [], 0, 0⟩
        (jstr "https://example.com/a") 5).1.metadata (jstr "https://example.com/a") = none := by
  have h := getFromCache_self_heals (fun s => s)
    ⟨[(jstr "https://example.com/a",
       ⟨jstr "https://example.com/a?x=1", jstr "https://example.com/a",
        jstr "https://example.com/a", jstr "p.png", 3, 0, 0, 1, 7⟩)], [], 0, 0⟩
    (jstr "https://example.com/a") 5 6
    ⟨jstr "https://example.com/a?x=1", jstr "https://example.com/a",
     jstr "https://example.com/a", jstr "p.png", 3, 0, 0, 1, 7⟩
    (by decide) (by decide)
  exact ⟨h.1, h.2.1⟩

/-! ### Claim C10: the `'unknown'` client-address sentinel -/

/-- Tiers 1-3 only ever touch the `req:`- and `gen:`-prefixed scope keys of
the calling principal; every other key's counter is untouched. -/
theorem requestTiers_frame (store : RateLimitStore) (apiKey : ApiKeyRec)
    (referer : Option JSStr) (isCacheHit : Bool) (now : Nat) (k : JSStr)
    (h1 : k ≠ jstr "req:" ++ apiKey.keyId)
    (h2 : k ≠ jstr "gen:" ++ apiKey.keyId)
    (h3 : ∀ d, k ≠ jstr "gen:" ++ apiKey.keyId ++ 58 :: d) :
    lookupA (requestTiers store apiKey referer isCacheHit now).1 k = lookupA store k := by
  unfold requestTiers
  rcases h1e : enforceLimit store (jstr "req:" ++ apiKey.keyId)
      apiKey.rateLimit.requests 60 now with ⟨st1, oe1⟩
  have f1 : lookupA st1 k = lookupA store k := by
    have := enforceLimit_frame store (jstr "req:" ++ apiKey.keyId) k
      apiKey.rateLimit.requests 60 now h1
    rw [h1e] at this
    exact this
  cases oe1 with
  | some e => simpa using f1
  | none =>
    simp only
    by_cases hhit : isCacheHit
    · simpa [hhit] using f1
    · rw [if_neg hhit]
      rcases h2e : enforceLimit st1 (jstr "gen:" ++ apiKey.keyId)
          apiKey.rateLimit.generations 60 now with ⟨st2, oe2⟩
      have f2 : lookupA st2 k = lookupA st1 k := by
        have := enforceLimit_frame st1 (jstr "gen:" ++ apiKey.keyId) k
          apiKey.rateLimit.generations 60 now h2
        rw [h2e] at this
        exact this
      cases oe2 with
      | some e => simpa using f2.trans f1
      | none =>
        simp only
        cases htype : apiKey.type with
        | adminKey => simpa using f2.trans f1
        | publicKey =>
          cases hdom : getDomainFromReferer referer with
          | none => simpa using f2.trans f1
          | some d =>
            simp only
            have f3 := enforceLimit_frame st2 (jstr "gen:" ++ apiKey.keyId ++ 58 :: d) k
              apiKey.rateLimit.generations 60 now (h3 d)
            rw [f3]
            exact f2.trans f1

/-- Claim C10: with the `'unknown'` client-address sentinel,
`checkRateLimit` behaves exactly like its first three tiers — the IP tier
is skipped, so no `ip:`-scoped counter is created or incremented (their
lookups are unchanged) and no client-tier `RateExceeded` can arise, on
cache hits and misses alike. -/
theorem checkRateLimit_unknown_ip_skips_client_tier (store : RateLimitStore)
    (apiKey : ApiKeyRec) (referer : Option JSStr) (isCacheHit : Bool) (now : Nat) :
    checkRateLimit store apiKey referer (jstr "unknown") isCacheHit now
      = requestTiers store apiKey referer isCacheHit now ∧
    ∀ k : JSStr, k.take 3 = jstr "ip:" →
      lookupA (checkRateLimit store apiKey referer (jstr "unknown") isCacheHit now).1 k
        = lookupA store k := by
  rcases hrt : requestTiers store apiKey referer isCacheHit now with ⟨st1, oe1⟩
  have heq : checkRateLimit store apiKey referer (jstr "unknown") isCacheHit now
      = (st1, oe1) := by
    unfold checkRateLimit
    rw [hrt]
    cases oe1 with
    | some e => rfl
    | none => simp
  refine ⟨heq, fun k hk => ?_⟩
  rw [heq]
  obtain ⟨t, rfl⟩ : ∃ t, k = 105 :: t := by
    cases k with
    | nil => exact absurd hk (by decide)
    | cons a t =>
      refine ⟨t, ?_⟩
      have ha : a = 105 := by
        have : a :: t.take 2 = [105, 112, 58] := hk
        exact (List.cons.injEq _ _ _ _ ▸ this).1
      rw [ha]
  have hfr := requestTiers_frame store apiKey referer isCacheHit now (105 :: t)
    (by
      rw [show jstr "req:" ++ apiKey.keyId = 114 :: (jstr "eq:" ++ apiKey.keyId) from rfl]
      simp)
    (by
      rw [show jstr "gen:" ++ apiKey.keyId = 103 :: (jstr "en:" ++ apiKey.keyId) from rfl]
      simp)
    (fun d => by
      rw [show jstr "gen:" ++ apiKey.keyId ++ 58 :: d
          = 103 :: (jstr "en:" ++ apiKey.keyId ++ 58 :: d) from rfl]
      simp)
  rw [hrt] at hfr
  exact hfr

/-- Witness for `checkRateLimit_unknown_ip_skips_client_tier`: a concrete
public key on a cache miss; the `ip:`-scoped counter stays absent. -/
theorem checkRateLimit_unknown_ip_witness :
    checkRateLimit [] ⟨jstr "pk_live_x", KeyType.publicKey, [jstr "example.com"], ⟨1000, 10⟩⟩
        (some (jstr "https://example.com/p")) (jstr "unknown") false 0
      = requestTiers [] ⟨jstr "pk_live_x", KeyType.publicKey, [jstr "example.com"], ⟨1000, 10⟩⟩
        (some (jstr "https://example.com/p")) false 0 ∧
    lookupA (checkRateLimit [] ⟨jstr "pk_live_x", KeyType.publicKey, [jstr "example.com"],
        ⟨1000, 10⟩⟩ (some (jstr "https://example.com/p")) (jstr "unknown") false 0).1
      (jstr "ip:1.2.3.4:gen") = lookupA ([] : RateLimitStore) (jstr "ip:1.2.3.4:gen") := by
  have h := checkRateLimit_unknown_ip_skips_client_tier []
    ⟨jstr "pk_live_x", KeyType.publicKey, [jstr "example.com"], ⟨1000, 10⟩⟩
    (some (jstr "https://example.com/p")) false 0
  exact ⟨h.1, h.2 (jstr "ip:1.2.3.4:gen") (by decide)⟩

/-! ### Claim C2: a failing `put` after successful generation -/

/-- A scope key not yet in the store is created fresh and never raises. -/
theorem enforceLimit_fresh (store : RateLimitStore) (key : JSStr) (limit w now : Nat)
    (h : lookupA store key = none) :
    enforceLimit store key limit w now
      = (insertA store key ⟨1, now + w * 1000⟩, none) := by
  unfold enforceLimit
  rw [h]

/-- `req:`-prefixed and `gen:`-prefixed scope keys are always distinct. -/
theorem req_key_ne_gen_key (x y : JSStr) : jstr "req:" ++ x ≠ jstr "gen:" ++ y := by
  rw [show jstr "req:" ++ x = 114 :: (jstr "eq:" ++ x) from rfl,
      show jstr "gen:" ++ y = 103 :: (jstr "en:" ++ y) from rfl]
  simp

/-- A per-key generation scope key differs from its per-domain refinement. -/
theorem gen_key_ne_domain_key (x d : JSStr) :
    jstr "gen:" ++ x ≠ jstr "gen:" ++ x ++ 58 :: d := by
  intro h
  have hlen := congrArg List.length h
  simp [List.length_append] at hlen

/-- On an empty store the first three tiers never raise: each scope key is
touched for the first time. -/
theorem requestTiers_fresh (apiKey : ApiKeyRec) (referer : Option JSStr)
    (hit : Bool) (now : Nat) :
    (requestTiers [] apiKey referer hit now).2 = none := by
  unfold requestTiers
  rw [enforceLimit_fresh [] (jstr "req:" ++ apiKey.keyId) apiKey.rateLimit.requests 60 now rfl]
  simp only
  by_cases hhit : hit
  · simp [hhit]
  · rw [if_neg hhit]
    have hlg : lookupA (insertA ([] : RateLimitStore) (jstr "req:" ++ apiKey.keyId)
        ⟨1, now + 60 * 1000⟩) (jstr "gen:" ++ apiKey.keyId) = none := by
      rw [lookupA_insertA_ne _ _ _ _ (Ne.symm (req_key_ne_gen_key apiKey.keyId apiKey.keyId))]
      rfl
    rw [enforceLimit_fresh _ (jstr "gen:" ++ apiKey.keyId) apiKey.rateLimit.generations 60 now hlg]
    simp only
    cases htype : apiKey.type with
    | adminKey => rfl
    | publicKey =>
      cases hdom : getDomainFromReferer referer with
      | none => rfl
      | some d =>
        simp only
        have hld : lookupA (insertA (insertA ([] : RateLimitStore)
            (jstr "req:" ++ apiKey.keyId) ⟨1, now + 60 * 1000⟩)
            (jstr "gen:" ++ apiKey.keyId) ⟨1, now + 60 * 1000⟩)
            (jstr "gen:" ++ apiKey.keyId ++ 58 :: d) = none := by
          rw [lookupA_insertA_ne _ _ _ _ (Ne.symm (gen_key_ne_domain_key apiKey.keyId d))]
          rw [lookupA_insertA_ne _ _ _ _ ?hne]
          · rfl
          case hne =>
            rw [List.append_assoc]
            exact Ne.symm (req_key_ne_gen_key apiKey.keyId (apiKey.keyId ++ 58 :: d))
        rw [enforceLimit_fresh _ (jstr "gen:" ++ apiKey.keyId ++ 58 :: d)
          apiKey.rateLimit.generations 60 now hld]

/-- With the `'unknown'` sentinel and non-raising first tiers,
`checkRateLimit` returns the tiers' store and no error. -/
theorem checkRateLimit_unknown_of_tiers_none (store : RateLimitStore) (apiKey : ApiKeyRec)
    (referer : Option JSStr) (hit : Bool) (now : Nat)
    (h : (requestTiers store apiKey referer hit now).2 = none) :
    checkRateLimit store apiKey referer (jstr "unknown") hit now
      = ((requestTiers store apiKey referer hit now).1, none) := by
  unfold checkRateLimit
  rcases hrt : requestTiers store apiKey referer hit now with ⟨st1, oe1⟩
  rw [hrt] at h
  simp only at h
  subst h
  simp

/-- Claim C2 (refuting evaluation): empty cache, successful generation of
bytes `[1,2,3]`, failing image write — the handler answers with a 500
`INTERNAL_ERROR` response, not with the produced image bytes. -/
theorem put_failure_counterexample :
    (getImageHandler (fun s => s) ⟨fun _ => false⟩ ⟨⟨[], [], 0, 0⟩, []⟩
        ⟨jstr "pk_live_x", KeyType.publicKey, [jstr "example.com"], ⟨1000, 10⟩⟩
        (jstr "https://example.com/x") none (jstr "unknown") false
        (Except.ok [1, 2, 3]) 5 0).2
      = HandlerOutcome.failure ErrCode.internalError 500 ∧
    HandlerOutcome.failure ErrCode.internalError 500
      ≠ HandlerOutcome.image [1, 2, 3] false := by
  decide

/-- Claim C2 (amended): when the cache misses, generation succeeds and the
cache write then fails, the write failure propagates out of `saveToCache`
uncaught, so the request fails with a 500 `INTERNAL_ERROR` — the
already-produced image bytes are NOT returned to the caller. -/
theorem put_failure_unwinds_response (digest : JSStr → JSStr) (fsm : FsModel)
    (cache : CacheState) (apiKey : ApiKeyRec) (url nurl img : JSStr)
    (referer : Option JSStr) (requireHttps : Bool) (generationTime now : Nat)
    (hvalid : validateUrl url apiKey.allowedDomains requireHttps = none)
    (hnorm : normalizeUrl url = some nurl)
    (hmiss : lookupA cache.metadata (digest nurl) = none)
    (hwrite : fsm.writeOk (getCacheFilePath (digest nurl)) = false) :
    (getImageHandler digest fsm ⟨cache, []⟩ apiKey url referer (jstr "unknown")
        requireHttps (Except.ok img) generationTime now).2
      = HandlerOutcome.failure ErrCode.internalError 500 := by
  have hget : getFromCache digest cache nurl now
      = ({ cache with cacheMisses := cache.cacheMisses + 1 }, none) := by
    simp only [getFromCache, hmiss]
  have hcrl := checkRateLimit_unknown_of_tiers_none [] apiKey referer false now
    (requestTiers_fresh apiKey referer false now)
  have hsave : saveToCache digest fsm { cache with cacheMisses := cache.cacheMisses + 1 }
      url nurl img generationTime now
      = ({ cache with cacheMisses := cache.cacheMisses + 1 },
         Except.error FsError.writeFailed) := by
    simp only [saveToCache, hwrite]
    rfl
  simp only [getImageHandler, hvalid, hnorm, hget, Option.isSome_none, hcrl, hsave]

/-- Witness for `put_failure_unwinds_response` at the concrete inputs of
the counterexample scenario. -/
theorem put_failure_unwinds_response_witness :
    (getImageHandler (fun s => s) ⟨fun _ => false⟩ ⟨⟨[], [], 0, 0⟩, []⟩
        ⟨jstr "pk_live_y", KeyType.publicKey, [jstr "example.com"], ⟨1000, 10⟩⟩
        (jstr "https://example.com/y") none (jstr "unknown") false
        (Except.ok [9, 9]) 7 3).2
      = HandlerOutcome.failure ErrCode.internalError 500 :=
  put_failure_unwinds_response (fun s => s) ⟨fun _ => false⟩ ⟨[], [], 0, 0⟩
    ⟨jstr "pk_live_y", KeyType.publicKey, [jstr "example.com"], ⟨1000, 10⟩⟩
    (jstr "https://example.com/y") (jstr "https://example.com/y") [9, 9] none false 7 3
    (by decide) (by decide) (by decide) (by decide)

/-! ### Claims C3 and C6: lower-casing and idempotence of `normalizeUrl` -/

theorem lowerCode_idem (n : Nat) : lowerCode (lowerCode n) = lowerCode n := by
  unfold lowerCode
  by_cases h : 65 ≤ n ∧ n ≤ 90
  · rw [if_pos h, if_neg (by omega : ¬ (65 ≤ n + 32 ∧ n + 32 ≤ 90))]
  · rw [if_neg h, if_neg h]

theorem lowerStr_idem (s : JSStr) : lowerStr (lowerStr s) = lowerStr s := by
  induction s with
  | nil => rfl
  | cons a t ih =>
    show lowerCode (lowerCode a) :: lowerStr (lowerStr t) = _
    rw [lowerCode_idem, ih]
    rfl

theorem lowerStr_append (a b : JSStr) : lowerStr (a ++ b) = lowerStr a ++ lowerStr b :=
  List.map_append lowerCode a b

theorem isAsciiAlpha_lowerCode {n : Nat} (h : isAsciiAlpha n = true) :
    isAsciiAlpha (lowerCode n) = true := by
  simp only [isAsciiAlpha, lowerCode, Bool.or_eq_true, Bool.and_eq_true,
    decide_eq_true_eq] at h ⊢
  split <;> omega

theorem isHostCode_lowerCode {n : Nat} (h : isHostCode n = true) :
    isHostCode (lowerCode n) = true := by
  simp only [isHostCode, lowerCode, Bool.or_eq_true, Bool.not_eq_true',
    Bool.or_eq_false_iff, beq_eq_false_iff_ne, ne_eq] at h ⊢
  split <;> omega

theorem isPathCode_lowerCode {n : Nat} (h : isPathCode n = true) :
    isPathCode (lowerCode n) = true := by
  simp only [isPathCode, lowerCode, Bool.not_eq_true', Bool.or_eq_false_iff,
    beq_eq_false_iff_ne, ne_eq] at h ⊢
  split <;> omega

theorem takeWhile_all {p : Nat → Bool} {l : JSStr} (h : ∀ x ∈ l, p x = true) :
    l.takeWhile p = l := by
  induction l with
  | nil => rfl
  | cons a t ih =>
    rw [List.takeWhile_cons, h a (List.mem_cons_self a t)]
    rw [ih (fun x hx => h x (List.mem_cons_of_mem a hx))]
    rfl

theorem dropWhile_all {p : Nat → Bool} {l : JSStr} (h : ∀ x ∈ l, p x = true) :
    l.dropWhile p = [] := by
  induction l with
  | nil => rfl
  | cons a t ih =>
    rw [List.dropWhile_cons, h a (List.mem_cons_self a t)]
    simp only [if_pos rfl]
    exact ih (fun x hx => h x (List.mem_cons_of_mem a hx))

theorem takeWhile_append_stop {p : Nat → Bool} {l₁ l₂ : JSStr}
    (h : ∀ x ∈ l₁, p x = true) (h2 : ∀ b, l₂.head? = some b → p b = false) :
    (l₁ ++ l₂).takeWhile p = l₁ := by
  induction l₁ with
  | nil =>
    cases l₂ with
    | nil => rfl
    | cons b t => simp [List.takeWhile_cons, h2 b rfl]
  | cons a t ih =>
    rw [List.cons_append, List.takeWhile_cons, h a (List.mem_cons_self a t)]
    rw [ih (fun x hx => h x (List.mem_cons_of_mem a hx))]
    rfl

theorem dropWhile_append_stop {p : Nat → Bool} {l₁ l₂ : JSStr}
    (h : ∀ x ∈ l₁, p x = true) (h2 : ∀ b, l₂.head? = some b → p b = false) :
    (l₁ ++ l₂).dropWhile p = l₂ := by
  induction l₁ with
  | nil =>
    cases l₂ with
    | nil => rfl
    | cons b t => simp [List.dropWhile_cons, h2 b rfl]
  | cons a t ih =>
    rw [List.cons_append, List.dropWhile_cons, h a (List.mem_cons_self a t)]
    simp only [if_pos rfl]
    exact ih (fun x hx => h x (List.mem_cons_of_mem a hx))

/-- Parsing a canonical `scheme://host` + path string recovers exactly its
components: the scheme (all letters), the host (no delimiters), no port,
and the path (starting `/`, no `?` or `#`), defaulting to `/` when empty. -/
theorem parseUrl_canonical (ls lh lp : JSStr)
    (hs_ne : ls ≠ []) (hs_al : ∀ x ∈ ls, isAsciiAlpha x = true)
    (hh_ne : lh ≠ []) (hh_hc : ∀ x ∈ lh, isHostCode x = true)
    (hp : lp = [] ∨ (lp.head? = some 47 ∧ ∀ x ∈ lp, isPathCode x = true)) :
    parseUrl (ls ++ 58 :: 47 :: 47 :: (lh ++ lp))
      = some ⟨lowerStr ls, lowerStr lh, [], if lp.isEmpty then [47] else lp, [], []⟩ := by
  have hs_empty : ls.isEmpty = false := by
    cases ls with
    | nil => exact absurd rfl hs_ne
    | cons a t => rfl
  have hh_empty : lh.isEmpty = false := by
    cases lh with
    | nil => exact absurd rfl hh_ne
    | cons a t => rfl
  have ht1 : (ls ++ 58 :: 47 :: 47 :: (lh ++ lp)).takeWhile isAsciiAlpha = ls :=
    takeWhile_append_stop hs_al (fun b hb => by
      injection hb with hb2
      subst hb2
      decide)
  have hd1 : (ls ++ 58 :: 47 :: 47 :: (lh ++ lp)).dropWhile isAsciiAlpha
      = 58 :: 47 :: 47 :: (lh ++ lp) :=
    dropWhile_append_stop hs_al (fun b hb => by
      injection hb with hb2
      subst hb2
      decide)
  have hpHead : ∀ b, lp.head? = some b → isHostCode b = false := by
    intro b hb
    rcases hp with rfl | ⟨hhead, hall⟩
    · simp at hb
    · rw [hhead] at hb
      injection hb with hb2
      subst hb2
      decide
  have ht2 : (lh ++ lp).takeWhile isHostCode = lh := takeWhile_append_stop hh_hc hpHead
  have hd2 : (lh ++ lp).dropWhile isHostCode = lp := dropWhile_append_stop hh_hc hpHead
  simp only [parseUrl, ht1, hd1, hs_empty, ht2, hd2, hh_empty]
  rcases hp with rfl | ⟨hhead, hall⟩
  · simp [parseAfterHost, delimOk]
  · obtain ⟨lt, rfl⟩ : ∃ lt, lp = 47 :: lt := by
      cases lp with
      | nil => simp at hhead
      | cons a t =>
        injection hhead with hb2
        exact ⟨t, by rw [hb2]⟩
    simp [parseAfterHost, delimOk, takeWhile_all hall, dropWhile_all hall]

/-- What `parseAfterHost` guarantees about a successful parse: scheme and
host are passed through, and the pathname starts with `/` and contains no
`?` or `#`. -/
theorem parseAfterHost_sound {sch host port r : JSStr} {p : ParsedURL}
    (h : parseAfterHost sch host port r = some p) :
    p.protocol = sch ∧ p.hostname = host ∧
    p.pathname.head? = some 47 ∧ ∀ x ∈ p.pathname, isPathCode x = true := by
  unfold parseAfterHost at h
  split at h
  · rename_i hdelim
    injection h with h2
    subst h2
    refine ⟨rfl, rfl, ?_, ?_⟩
    · show (if (r.takeWhile isPathCode).isEmpty = true then [47]
          else r.takeWhile isPathCode).head? = some 47
      by_cases hpe : (r.takeWhile isPathCode).isEmpty = true
      · rw [if_pos hpe]
        rfl
      · rw [if_neg hpe]
        cases r with
        | nil => exact absurd rfl hpe
        | cons a t =>
          have ha : (a = 47 ∨ a = 63) ∨ a = 35 := by
            simpa [delimOk] using hdelim
          rcases ha with (rfl | rfl) | rfl
          · rw [List.takeWhile_cons]
            rfl
          · exact absurd rfl hpe
          · exact absurd rfl hpe
    · intro x hx
      have hx' : x ∈ (if (r.takeWhile isPathCode).isEmpty = true then [47]
          else r.takeWhile isPathCode) := hx
      by_cases hpe : (r.takeWhile isPathCode).isEmpty = true
      · rw [if_pos hpe] at hx'
        have hx47 : x = 47 := by simpa using hx'
        subst hx47
        decide
      · rw [if_neg hpe] at hx'
        exact List.mem_takeWhile_imp hx'
  · exact absurd h (by simp)

/-- Facts shared by both port branches of `parseUrl`. -/
theorem parse_components_facts {s r2 : JSStr} {p : ParsedURL}
    (hsne : ¬((s.takeWhile isAsciiAlpha).isEmpty = true))
    (hhne : ¬((r2.takeWhile isHostCode).isEmpty = true))
    (hp1 : p.protocol = lowerStr (s.takeWhile isAsciiAlpha))
    (hp2 : p.hostname = lowerStr (r2.takeWhile isHostCode))
    (hp3 : p.pathname.head? = some 47)
    (hp4 : ∀ x ∈ p.pathname, isPathCode x = true) :
    p.protocol ≠ [] ∧ (∀ x ∈ p.protocol, isAsciiAlpha x = true) ∧
    lowerStr p.protocol = p.protocol ∧
    p.hostname ≠ [] ∧ (∀ x ∈ p.hostname, isHostCode x = true) ∧
    lowerStr p.hostname = p.hostname ∧
    p.pathname.head? = some 47 ∧ (∀ x ∈ p.pathname, isPathCode x = true) := by
  refine ⟨?_, ?_, ?_, ?_, ?_, ?_, hp3, hp4⟩
  · rw [hp1]
    intro hnil
    exact hsne (by rw [List.map_eq_nil_iff.mp hnil]; rfl)
  · intro x hx
    rw [hp1] at hx
    obtain ⟨y, hy, rfl⟩ := List.mem_map.mp hx
    exact isAsciiAlpha_lowerCode (List.mem_takeWhile_imp hy)
  · rw [hp1]
    exact lowerStr_idem _
  · rw [hp2]
    intro hnil
    exact hhne (by rw [List.map_eq_nil_iff.mp hnil]; rfl)
  · intro x hx
    rw [hp2] at hx
    obtain ⟨y, hy, rfl⟩ := List.mem_map.mp hx
    exact isHostCode_lowerCode (List.mem_takeWhile_imp hy)
  · rw [hp2]
    exact lowerStr_idem _

/-- Soundness of the URL parser: a successful parse yields a non-empty
all-letter lower-case-fixed scheme, a non-empty delimiter-free
lower-case-fixed host, and a path starting `/` with no `?` or `#`. -/
theorem parseUrl_sound {s : JSStr} {p : ParsedURL} (h : parseUrl s = some p) :
    p.protocol ≠ [] ∧ (∀ x ∈ p.protocol, isAsciiAlpha x = true) ∧
    lowerStr p.protocol = p.protocol ∧
    p.hostname ≠ [] ∧ (∀ x ∈ p.hostname, isHostCode x = true) ∧
    lowerStr p.hostname = p.hostname ∧
    p.pathname.head? = some 47 ∧ (∀ x ∈ p.pathname, isPathCode x = true) := by
  simp only [parseUrl] at h
  split at h
  · rename_i r2 heq
    split at h
    · exact absurd h (by simp)
    · rename_i hsne
      split at h
      · exact absurd h (by simp)
      · rename_i hhne
        split at h
        · rename_i r3' heq3
          split at h
          · exact absurd h (by simp)
          · obtain ⟨hp1, hp2, hp3, hp4⟩ := parseAfterHost_sound h
            exact parse_components_facts hsne hhne hp1 hp2 hp3 hp4
        · obtain ⟨hp1, hp2, hp3, hp4⟩ := parseAfterHost_sound h
          exact parse_components_facts hsne hhne hp1 hp2 hp3 hp4
  · exact absurd h (by simp)

/-- On any accepted URL, `normalizeUrl` lower-cases each reconstructed
component — including the pathname. -/
theorem normalizeUrl_parse_eq {u : JSStr} {p : ParsedURL} (h : parseUrl u = some p) :
    normalizeUrl u = some (stripTrailingSlash
      (lowerStr p.protocol ++ [58, 47, 47] ++ lowerStr p.hostname ++ lowerStr p.pathname)) := by
  simp only [normalizeUrl, h, Option.map_some']
  rw [lowerStr_append, lowerStr_append, lowerStr_append]
  rfl

/-- Claim C3 (amended): for every accepted URL the result is
`scheme://host/path` — query string, fragment and port removed, one
trailing slash removed — with the scheme, the host AND the path all
lower-cased (the path is not kept in its original character case), and the
result depends only on the scheme, host and path components. -/
theorem normalizeUrl_shape (u : JSStr) (p : ParsedURL) (h : parseUrl u = some p) :
    normalizeUrl u = some (stripTrailingSlash
      (lowerStr p.protocol ++ [58, 47, 47] ++ lowerStr p.hostname ++ lowerStr p.pathname)) ∧
    ∀ u' p', parseUrl u' = some p' → p'.protocol = p.protocol →
      p'.hostname = p.hostname → p'.pathname = p.pathname →
      normalizeUrl u' = normalizeUrl u := by
  refine ⟨normalizeUrl_parse_eq h, fun u' p' h' e1 e2 e3 => ?_⟩
  rw [normalizeUrl_parse_eq h', normalizeUrl_parse_eq h, e1, e2, e3]

/-- Claim C3 (refuting evaluation): the path's original character case is
NOT preserved — `/Page` comes back as `/page`, because the code lower-cases
the whole reconstructed string, not just scheme and host. -/
theorem normalizeUrl_lowercases_path :
    normalizeUrl (jstr "https://example.com/Page") = some (jstr "https://example.com/page") ∧
    jstr "https://example.com/page" ≠ jstr "https://example.com/Page" := by
  decide

/-- Witness for `normalizeUrl_shape`: a mixed-case URL with query, and a
second URL differing only in query/fragment normalizing identically. -/
theorem normalizeUrl_shape_witness :
    normalizeUrl (jstr "https://Example.com/PaTh/?q=1")
      = some (stripTrailingSlash (lowerStr (jstr "https") ++ [58, 47, 47]
          ++ lowerStr (jstr "example.com") ++ lowerStr (jstr "/PaTh/"))) ∧
    normalizeUrl (jstr "https://example.com/PaTh/#z")
      = normalizeUrl (jstr "https://Example.com/PaTh/?q=1") := by
  have h := normalizeUrl_shape (jstr "https://Example.com/PaTh/?q=1")
    ⟨jstr "https", jstr "example.com", [], jstr "/PaTh/", jstr "?q=1", []⟩ (by decide)
  exact ⟨h.1, h.2 (jstr "https://example.com/PaTh/#z")
    ⟨jstr "https", jstr "example.com", [], jstr "/PaTh/", [], jstr "#z"⟩
    (by decide) (by decide) (by decide) (by decide)⟩

/-- The last element of a canonical URL string is the path's last element
when the path is non-empty. -/
theorem getLast?_canonical (ls lh lp : JSStr) (h : lp ≠ []) :
    (ls ++ 58 :: 47 :: 47 :: (lh ++ lp)).getLast? = lp.getLast? := by
  rw [List.getLast?_append_of_ne_nil ls (by simp : (58 :: 47 :: 47 :: (lh ++ lp)) ≠ [])]
  rw [show (58 :: 47 :: 47 :: (lh ++ lp)) = [58, 47, 47] ++ (lh ++ lp) from rfl]
  rw [List.getLast?_append_of_ne_nil [58, 47, 47]
    (by simp [h] : lh ++ lp ≠ [])]
  rw [List.getLast?_append_of_ne_nil lh h]

/-- Dropping the last element of a canonical URL string with a non-empty
path drops the path's last element. -/
theorem dropLast_canonical (ls lh lp : JSStr) (h : lp ≠ []) :
    (ls ++ 58 :: 47 :: 47 :: (lh ++ lp)).dropLast
      = ls ++ 58 :: 47 :: 47 :: (lh ++ lp.dropLast) := by
  rw [List.dropLast_append_of_ne_nil ls (by simp : (58 :: 47 :: 47 :: (lh ++ lp)) ≠ [])]
  rw [show (58 :: 47 :: 47 :: (lh ++ lp)) = [58, 47, 47] ++ (lh ++ lp) from rfl]
  rw [List.dropLast_append_of_ne_nil [58, 47, 47] (by simp [h] : lh ++ lp ≠ [])]
  rw [List.dropLast_append_of_ne_nil lh h]
  rfl

/-- A canonical URL string — lower-case-fixed scheme and host, path either
empty or `/`-headed, `?#`-free and not ending in `/` — is a fixed point of
`normalizeUrl`. -/
theorem normalizeUrl_canonical_fix (ls lh lp : JSStr)
    (hs_ne : ls ≠ []) (hs_al : ∀ x ∈ ls, isAsciiAlpha x = true) (hs_lo : lowerStr ls = ls)
    (hh_ne : lh ≠ []) (hh_hc : ∀ x ∈ lh, isHostCode x = true) (hh_lo : lowerStr lh = lh)
    (hp : lp = [] ∨ (lp.head? = some 47 ∧ (∀ x ∈ lp, isPathCode x = true) ∧ lowerStr lp = lp))
    (hpl : lp.getLast? ≠ some 47) :
    normalizeUrl (ls ++ 58 :: 47 :: 47 :: (lh ++ lp))
      = some (ls ++ 58 :: 47 :: 47 :: (lh ++ lp)) := by
  have hparse := parseUrl_canonical ls lh lp hs_ne hs_al hh_ne hh_hc
    (hp.imp id (fun hx => ⟨hx.1, hx.2.1⟩))
  simp only [normalizeUrl, hparse, Option.map_some']
  rcases hp with rfl | ⟨hhead, hall, hlo⟩
  · rw [show (if ([] : JSStr).isEmpty = true then ([47] : JSStr) else []) = [47] from rfl]
    rw [lowerStr_append, lowerStr_append, lowerStr_append, lowerStr_idem, lowerStr_idem,
      hs_lo, hh_lo]
    rw [show lowerStr [58, 47, 47] = [58, 47, 47] from rfl,
        show lowerStr [47] = [47] from rfl]
    rw [show ls ++ [58, 47, 47] ++ lh ++ [47]
        = ls ++ 58 :: 47 :: 47 :: (lh ++ [47]) from by simp]
    unfold stripTrailingSlash
    rw [getLast?_canonical ls lh [47] (by simp)]
    rw [if_pos (show ([47] : JSStr).getLast? = some 47 from by decide)]
    rw [dropLast_canonical ls lh [47] (by simp)]
    rfl
  · have hlpne : lp ≠ [] := by
      intro hn
      rw [hn] at hhead
      exact absurd hhead (by simp)
    have hemp : lp.isEmpty = false := by
      cases lp with
      | nil => exact absurd rfl hlpne
      | cons a t => rfl
    rw [hemp]
    simp only [Bool.false_eq_true, if_false]
    rw [lowerStr_append, lowerStr_append, lowerStr_append, lowerStr_idem, lowerStr_idem,
      hs_lo, hh_lo, hlo]
    rw [show lowerStr [58, 47, 47] = [58, 47, 47] from rfl]
    rw [show ls ++ [58, 47, 47] ++ lh ++ lp
        = ls ++ 58 :: 47 :: 47 :: (lh ++ lp) from by simp]
    unfold stripTrailingSlash
    rw [getLast?_canonical ls lh lp hlpne]
    rw [if_neg hpl]

theorem lowerStr_dropLast (l : JSStr) : lowerStr l.dropLast = (lowerStr l).dropLast :=
  List.map_dropLast lowerCode l

/-- Claim C6 (refuting evaluation): `normalize` strips only one trailing
slash per application, so on `https://example.com/a//` the first pass
yields `.../a/` and the second yields `.../a` — the composition differs
from a single application. -/
theorem normalizeUrl_not_idempotent :
    normalizeUrl (jstr "https://example.com/a//") = some (jstr "https://example.com/a/") ∧
    (normalizeUrl (jstr "https://example.com/a//")).bind normalizeUrl
      = some (jstr "https://example.com/a") ∧
    jstr "https://example.com/a" ≠ jstr "https://example.com/a/" := by
  decide

/-- Claim C6 (amended): `normalize` is idempotent on every accepted URL
whose normalized form does not still end in a slash (equivalently, whose
pathname does not end in a double slash): if `normalize u = r` and `r`
does not end with `/`, then `normalize r = r`. -/
theorem normalizeUrl_idem_of_no_trailing_slash (u r : JSStr)
    (h : normalizeUrl u = some r) (hr : r.getLast? ≠ some 47) :
    normalizeUrl r = some r := by
  rcases hpu : parseUrl u with _ | p
  · rw [normalizeUrl] at h
    rw [hpu] at h
    exact absurd h (by simp)
  · obtain ⟨hsne, hsal, hslo, hhne, hhhc, hhlo, hph, hpall⟩ := parseUrl_sound hpu
    have hre0 := normalizeUrl_parse_eq hpu
    rw [h] at hre0
    injection hre0 with hre
    have hPne : lowerStr p.pathname ≠ [] := by
      intro hn
      rw [List.map_eq_nil_iff.mp hn] at hph
      exact absurd hph (by simp)
    have hPhead : (lowerStr p.pathname).head? = some 47 := by
      cases hpn : p.pathname with
      | nil => rw [hpn] at hph; exact absurd hph (by simp)
      | cons a t =>
        rw [hpn] at hph
        have ha : a = 47 := by simpa using hph
        subst ha
        rfl
    have hPall : ∀ x ∈ lowerStr p.pathname, isPathCode x = true := by
      intro x hx
      obtain ⟨y, hy, rfl⟩ := List.mem_map.mp hx
      exact isPathCode_lowerCode (hpall y hy)
    have hPlo : lowerStr (lowerStr p.pathname) = lowerStr p.pathname := lowerStr_idem _
    rw [hslo, hhlo] at hre
    rw [show p.protocol ++ [58, 47, 47] ++ p.hostname ++ lowerStr p.pathname
        = p.protocol ++ 58 :: 47 :: 47 :: (p.hostname ++ lowerStr p.pathname) from by simp]
      at hre
    unfold stripTrailingSlash at hre
    rw [getLast?_canonical p.protocol p.hostname (lowerStr p.pathname) hPne] at hre
    by_cases HB : (lowerStr p.pathname).getLast? = some 47
    · rw [if_pos HB] at hre
      rw [dropLast_canonical p.protocol p.hostname (lowerStr p.pathname) hPne] at hre
      by_cases HE : (lowerStr p.pathname).dropLast = []
      · rw [HE] at hre
        rw [hre]
        exact normalizeUrl_canonical_fix p.protocol p.hostname [] hsne hsal hslo
          hhne hhhc hhlo (Or.inl rfl) (by simp)
      · have hP'head : ((lowerStr p.pathname).dropLast).head? = some 47 := by
          cases hpc : lowerStr p.pathname with
          | nil => exact absurd hpc hPne
          | cons a t =>
            have ha : a = 47 := by
              rw [hpc] at hPhead
              simpa using hPhead
            subst ha
            cases t with
            | nil =>
              rw [hpc] at HE
              exact absurd rfl HE
            | cons b t' =>
              rfl
        have hP'all : ∀ x ∈ (lowerStr p.pathname).dropLast, isPathCode x = true :=
          fun x hx => hPall x (List.mem_of_mem_dropLast hx)
        have hP'lo : lowerStr ((lowerStr p.pathname).dropLast)
            = (lowerStr p.pathname).dropLast := by
          rw [lowerStr_dropLast, lowerStr_idem]
        have hP'last : ((lowerStr p.pathname).dropLast).getLast? ≠ some 47 := by
          rw [hre] at hr
          rw [getLast?_canonical p.protocol p.hostname ((lowerStr p.pathname).dropLast) HE]
            at hr
          exact hr
        rw [hre]
        exact normalizeUrl_canonical_fix p.protocol p.hostname
          ((lowerStr p.pathname).dropLast) hsne hsal hslo hhne hhhc hhlo
          (Or.inr ⟨hP'head, hP'all, hP'lo⟩) hP'last
    · rw [if_neg HB] at hre
      rw [hre]
      exact normalizeUrl_canonical_fix p.protocol p.hostname (lowerStr p.pathname)
        hsne hsal hslo hhne hhhc hhlo (Or.inr ⟨hPhead, hPall, hPlo⟩) HB

/-- Witness for `normalizeUrl_idem_of_no_trailing_slash`: normalizing the
already-normalized form of a mixed-case URL with a query string leaves it
unchanged. -/
theorem normalizeUrl_idem_witness :
    normalizeUrl (jstr "https://example.com/a") = some (jstr "https://example.com/a") :=
  normalizeUrl_idem_of_no_trailing_slash (jstr "https://Example.com/a?q=1")
    (jstr "https://example.com/a") (by decide) (by decide)
